import Mathlib

/-! SOLID snippets in Go: a verification development.

Each of the ten programs of the repository is a stand-alone `package main`.
Every program is embedded in a namespace of its own.  Standard output is
modelled as the text written so far; each `fmt.Printf` / `fmt.Println` call
appends to it.
-/

/-- The text written to standard output so far. -/
abbrev Stdout := String

/-- The call `fmt.Println(s)` for one string operand: the operand, then a newline. -/
def fmtPrintln (s : String) (out : Stdout) : Stdout :=
  out ++ s ++ "\n"

/-- Splits a character sequence at every newline; `cur` holds the characters of
the line being read, in reverse.  A final line without a newline is kept when
it is not empty. -/
def splitLines : List Char → List Char → List String
  | [], cur => if cur.isEmpty then [] else [String.mk cur.reverse]
  | c :: cs, cur =>
      if c = '\n' then String.mk cur.reverse :: splitLines cs []
      else splitLines cs (c :: cur)

/-- The lines of a text written to standard output. -/
def outputLines (out : Stdout) : List String :=
  splitLines out.data []

/-- Whether `sub` occurs at some position of `l`. -/
def containsAt (sub : List Char) : List Char → Bool
  | [] => sub.isEmpty
  | c :: cs => sub.isPrefixOf (c :: cs) || containsAt sub cs

/-- Whether the line `line` contains the text `sub`. -/
def lineContains (line sub : String) : Bool :=
  containsAt sub.data line.data

/-! ## SRP -/

namespace SrpOriginal

structure User where
  Name : String
  Email : String
deriving DecidableEq, Repr

/-- Source: `SaveUser`: `fmt.Printf("Salvando usuário: %s, email: %s\n", u.Name, u.Email)`. -/
def SaveUser (u : User) (out : Stdout) : Stdout :=
  out ++ "Salvando usuário: " ++ u.Name ++ ", email: " ++ u.Email ++ "\n"

/-- Source: `SendEmail`: `fmt.Printf("Enviando email para %s: %s\n", u.Email, message)`. -/
def SendEmail (u : User) (message : String) (out : Stdout) : Stdout :=
  out ++ "Enviando email para " ++ u.Email ++ ": " ++ message ++ "\n"

def main (out : Stdout) : Stdout :=
  let user : User := { Name := "João", Email := "joao@email.com" }
  let out := SaveUser user out
  SendEmail user "Bem-vindo!" out

end SrpOriginal

namespace SrpRefactor

structure User where
  Name : String
  Email : String
deriving DecidableEq, Repr

structure UserRepository where
deriving DecidableEq, Repr

/-- Source: `UserRepository.Save`: `fmt.Printf("Salvando usuário: %s, email: %s\n", u.Name, u.Email)`. -/
def UserRepository.Save (_r : UserRepository) (u : User) (out : Stdout) : Stdout :=
  out ++ "Salvando usuário: " ++ u.Name ++ ", email: " ++ u.Email ++ "\n"

structure EmailService where
deriving DecidableEq, Repr

/-- Source: `EmailService.Send`: `fmt.Printf("Enviando email para %s: %s\n", u.Email, message)`. -/
def EmailService.Send (_e : EmailService) (u : User) (message : String) (out : Stdout) : Stdout :=
  out ++ "Enviando email para " ++ u.Email ++ ": " ++ message ++ "\n"

def main (out : Stdout) : Stdout :=
  let user : User := { Name := "João", Email := "joao@email.com" }
  let repo : UserRepository := {}
  let email : EmailService := {}
  let out := repo.Save user out
  email.Send user "Bem-vindo!" out

end SrpRefactor

/-! ## DIP -/

namespace DipOriginal

structure MySQLRepository where
deriving DecidableEq, Repr

/-- Source: `MySQLRepository.Save`: `fmt.Printf("Salvando '%s' no MySQL\n", data)`. -/
def MySQLRepository.Save (_r : MySQLRepository) (data : String) (out : Stdout) : Stdout :=
  out ++ "Salvando '" ++ data ++ "' no MySQL\n"

/-- The service holds the concrete repository by value. -/
structure UserService where
  Repo : MySQLRepository
deriving DecidableEq, Repr

def UserService.Register (s : UserService) (name : String) (out : Stdout) : Stdout :=
  s.Repo.Save name out

def main (out : Stdout) : Stdout :=
  let repo : MySQLRepository := {}
  let service : UserService := { Repo := repo }
  service.Register "Maria" out

end DipOriginal

namespace DipRefactor

/-- A run of the program either completes with the text written, or stops with
a run-time panic. -/
inductive RuntimeError where
  | nilDereference
deriving DecidableEq, Repr

/-- The method set of the interface `Repository`; a value of this type is a
non-nil interface value, its method bound to the dynamic value it holds. -/
structure Repository where
  Save : String → Stdout → Stdout

structure MySQLRepository where
deriving DecidableEq, Repr

/-- Source: `MySQLRepository.Save`: `fmt.Printf("Salvando '%s' no MySQL\n", data)`. -/
def MySQLRepository.Save (_r : MySQLRepository) (data : String) (out : Stdout) : Stdout :=
  out ++ "Salvando '" ++ data ++ "' no MySQL\n"

/-- The interface value made when a `MySQLRepository` is assigned to a
`Repository`. -/
def MySQLRepository.toRepository (r : MySQLRepository) : Repository :=
  { Save := r.Save }

/-- The field `Repo` is an interface value: `none` is the nil interface, which
is what the zero value `UserService{}` holds. -/
structure UserService where
  Repo : Option Repository

/-- The zero value `UserService{}`. -/
def UserService.zero : UserService :=
  { Repo := none }

/-- Source: `s.Repo.Save(name)`: a method call through a nil interface value panics. -/
def UserService.Register (s : UserService) (name : String) (out : Stdout) :
    Except RuntimeError Stdout :=
  match s.Repo with
  | none => Except.error RuntimeError.nilDereference
  | some repo => Except.ok (repo.Save name out)

def main (out : Stdout) : Except RuntimeError Stdout :=
  let repo : MySQLRepository := {}
  let service : UserService := { Repo := some repo.toRepository }
  service.Register "Maria" out

end DipRefactor

/-! ## LSP -/

namespace LspOriginal

/-- The method set of the interface `Animal`. -/
structure Animal where
  Speak : Unit → String

structure Dog where
deriving DecidableEq, Repr

def Dog.Speak (_d : Dog) : String :=
  "Au au!"

structure Cat where
deriving DecidableEq, Repr

def Cat.Speak (_c : Cat) : String :=
  "Miau!"

def Dog.toAnimal (d : Dog) : Animal :=
  { Speak := fun _ => d.Speak }

def Cat.toAnimal (c : Cat) : Animal :=
  { Speak := fun _ => c.Speak }

/-- Source: `MakeAnimalSpeak`: `fmt.Println(a.Speak())`. -/
def MakeAnimalSpeak (a : Animal) (out : Stdout) : Stdout :=
  fmtPrintln (a.Speak ()) out

def main (out : Stdout) : Stdout :=
  let a : Animal := Dog.toAnimal {}
  let out := MakeAnimalSpeak a out
  let a : Animal := Cat.toAnimal {}
  MakeAnimalSpeak a out

end LspOriginal

namespace LspRefactor

/-- The method set of the interface `Animal`. -/
structure Animal where
  Speak : Unit → String

structure Dog where
deriving DecidableEq, Repr

def Dog.Speak (_d : Dog) : String :=
  "Au au!"

structure Cat where
deriving DecidableEq, Repr

def Cat.Speak (_c : Cat) : String :=
  "Miau!"

structure Duck where
deriving DecidableEq, Repr

def Duck.Speak (_d : Duck) : String :=
  "Quack!"

def Dog.toAnimal (d : Dog) : Animal :=
  { Speak := fun _ => d.Speak }

def Cat.toAnimal (c : Cat) : Animal :=
  { Speak := fun _ => c.Speak }

def Duck.toAnimal (d : Duck) : Animal :=
  { Speak := fun _ => d.Speak }

/-- Source: `MakeAnimalSpeak`: `fmt.Println(a.Speak())`. -/
def MakeAnimalSpeak (a : Animal) (out : Stdout) : Stdout :=
  fmtPrintln (a.Speak ()) out

def main (out : Stdout) : Stdout :=
  let a : Animal := Dog.toAnimal {}
  let out := MakeAnimalSpeak a out
  let a : Animal := Cat.toAnimal {}
  let out := MakeAnimalSpeak a out
  let a : Animal := Duck.toAnimal {}
  MakeAnimalSpeak a out

end LspRefactor

/-! ## ISP

The claims about these two programs are about which type provides which
method, so the method declarations are kept as data: the method set of each
interface, the methods declared on each struct type, and the rule that a type
may be assigned to an interface only when it declares every method of the
interface.  A program that breaks the rule is rejected by the compiler and
never runs. -/

/-- The result of building and running a program. -/
inductive Run where
  | rejected
  | completed (out : Stdout)
deriving DecidableEq, Repr

namespace IspOriginal

inductive Method where
  | Work
  | Eat
deriving DecidableEq, Repr

inductive Interface where
  | Worker
deriving DecidableEq, Repr

inductive StructType where
  | Robot
  | Human
deriving DecidableEq, Repr

/-- Source: `type Worker interface { Work(); Eat() }`. -/
def Interface.methodSet : Interface → List Method
  | Interface.Worker => [Method.Work, Method.Eat]

/-- Source: `func (r Robot) Work()`. -/
def Robot.Work (out : Stdout) : Stdout :=
  fmtPrintln "Robô trabalhando" out

/-- Source: `func (h Human) Work()`. -/
def Human.Work (out : Stdout) : Stdout :=
  fmtPrintln "Humano trabalhando" out

/-- Source: `func (h Human) Eat()`. -/
def Human.Eat (out : Stdout) : Stdout :=
  fmtPrintln "Humano comendo" out

/-- The method declared with the given receiver type and name, when there is
one.  The file declares no `Eat` with receiver `Robot`. -/
def StructType.method : StructType → Method → Option (Stdout → Stdout)
  | StructType.Robot, Method.Work => some Robot.Work
  | StructType.Robot, Method.Eat => none
  | StructType.Human, Method.Work => some Human.Work
  | StructType.Human, Method.Eat => some Human.Eat

/-- Whether the type declares the method. -/
def StructType.provides (t : StructType) (m : Method) : Bool :=
  (t.method m).isSome

/-- A type implements an interface when it declares every method of it. -/
def StructType.implements (t : StructType) (i : Interface) : Bool :=
  i.methodSet.all fun m => t.provides m

/-- The call `w.m()` on a variable `w` of interface type `i` to which a value
of type `t` was assigned: the compiler accepts the assignment when `t`
implements `i`, and the call when `m` is a method of `i`; the call runs the
method of `t`. -/
def callThrough (i : Interface) (t : StructType) (m : Method) (out : Stdout) : Option Stdout :=
  if t.implements i && i.methodSet.contains m then
    (t.method m).map fun body => body out
  else none

/-- The statements of `main`: `w = Robot{}; w.Work()` and
`w = Human{}; w.Work(); w.Eat()`, with `w` of type `Worker`.  The
commented-out `w.Eat()` after the first call is no statement. -/
def mainBody (out : Stdout) : Option Stdout :=
  (callThrough Interface.Worker StructType.Robot Method.Work out).bind fun out =>
  (callThrough Interface.Worker StructType.Human Method.Work out).bind fun out =>
  callThrough Interface.Worker StructType.Human Method.Eat out

/-- The program runs only when the compiler accepts every statement. -/
def main (out : Stdout) : Run :=
  match mainBody out with
  | some out => Run.completed out
  | none => Run.rejected

end IspOriginal

namespace IspRefactor

inductive Method where
  | Work
  | Eat
deriving DecidableEq, Repr

inductive Interface where
  | Workable
  | Eatable
deriving DecidableEq, Repr

inductive StructType where
  | Robot
  | Human
deriving DecidableEq, Repr

/-- Source: `type Workable interface { Work() }` and `type Eatable interface { Eat() }`. -/
def Interface.methodSet : Interface → List Method
  | Interface.Workable => [Method.Work]
  | Interface.Eatable => [Method.Eat]

/-- Source: `func (r Robot) Work()`. -/
def Robot.Work (out : Stdout) : Stdout :=
  fmtPrintln "Robô trabalhando" out

/-- Source: `func (h Human) Work()`. -/
def Human.Work (out : Stdout) : Stdout :=
  fmtPrintln "Humano trabalhando" out

/-- Source: `func (h Human) Eat()`. -/
def Human.Eat (out : Stdout) : Stdout :=
  fmtPrintln "Humano comendo" out

/-- The method declared with the given receiver type and name, when there is
one.  The file declares no `Eat` with receiver `Robot`. -/
def StructType.method : StructType → Method → Option (Stdout → Stdout)
  | StructType.Robot, Method.Work => some Robot.Work
  | StructType.Robot, Method.Eat => none
  | StructType.Human, Method.Work => some Human.Work
  | StructType.Human, Method.Eat => some Human.Eat

/-- Whether the type declares the method. -/
def StructType.provides (t : StructType) (m : Method) : Bool :=
  (t.method m).isSome

/-- A type implements an interface when it declares every method of it. -/
def StructType.implements (t : StructType) (i : Interface) : Bool :=
  i.methodSet.all fun m => t.provides m

/-- The call `v.m()` on a variable `v` of interface type `i` holding a value
of type `t`: the compiler accepts it when `t` implements `i` and `m` is a
method of `i`; it runs the method of `t`. -/
def callThrough (i : Interface) (t : StructType) (m : Method) (out : Stdout) : Option Stdout :=
  if t.implements i && i.methodSet.contains m then
    (t.method m).map fun body => body out
  else none

/-- The call `v.m()` on a variable `v` of struct type `t`. -/
def callOn (t : StructType) (m : Method) (out : Stdout) : Option Stdout :=
  (t.method m).map fun body => body out

/-- The statements of `main`: `var w Workable = Robot{}; w.Work()` and
`var h Human = Human{}; h.Work(); h.Eat()`. -/
def mainBody (out : Stdout) : Option Stdout :=
  (callThrough Interface.Workable StructType.Robot Method.Work out).bind fun out =>
  (callOn StructType.Human Method.Work out).bind fun out =>
  callOn StructType.Human Method.Eat out

/-- The program runs only when the compiler accepts every statement. -/
def main (out : Stdout) : Run :=
  match mainBody out with
  | some out => Run.completed out
  | none => Run.rejected

end IspRefactor

/-! ## float64

`Product.Price` is a `float64`.  A finite value is kept as sign, integer
significand and binary exponent, `(-1)^neg * mant * 2^exp`, within the
range of the format (53-bit significand, exponent of the last place between
-1074 and 971); the same number may have several such forms.  Arithmetic is
IEEE 754 binary64 with rounding to nearest, ties to even. -/

/-- A `float64` value. -/
inductive Float64 where
  | finite (neg : Bool) (mant : Nat) (exp : Int)
      (wf : mant < 2 ^ 53 ∧ -1074 ≤ exp ∧ exp ≤ 971)
  | inf (neg : Bool)
  | nan
deriving DecidableEq

/-- The number a finite value stands for (0 for the others). -/
def Float64.toRat : Float64 → ℚ
  | Float64.finite s m e _ => (if s then -1 else 1) * ((m : ℚ) * (2 : ℚ) ^ e)
  | _ => 0

/-- Number of binary digits of `n`, computed with `fuel` halvings at most. -/
def bitLengthAux : Nat → Nat → Nat
  | 0, _ => 0
  | fuel + 1, n => if n = 0 then 0 else bitLengthAux fuel (n / 2) + 1

/-- Number of binary digits of `n` (0 for 0). -/
def bitLength (n : Nat) : Nat :=
  bitLengthAux n n

/-- The integer nearest to `n / 2^s`, a tie going to the even one. -/
def shiftRoundEven (n s : Nat) : Nat :=
  let q := n / 2 ^ s
  let r := n % 2 ^ s
  if 2 * r < 2 ^ s then q
  else if 2 ^ s < 2 * r then q + 1
  else if q % 2 = 0 then q else q + 1

/-- The exponent of the last place kept when `n * 2^e` is rounded to 53
significant bits, not below the exponent of the subnormal numbers. -/
def targetExp (n : Nat) (e : Int) : Int :=
  max (e + (bitLength n : Int) - 53) (-1074)

/-- Rounds the magnitude `n * 2^e` to nearest, ties to even, with no bound on
the exponent from above: the result is `(m, t)`, standing for `m * 2^t`.
A product that is zero stays zero. -/
def roundMag (n : Nat) (e : Int) : Nat × Int :=
  if n = 0 then (0, -1074)
  else
    let t := targetExp n e
    if t ≤ e then (n * 2 ^ (e - t).toNat, t)
    else
      let m := shiftRoundEven n (t - e).toNat
      if m = 2 ^ 53 then (2 ^ 52, t + 1) else (m, t)

/-- The value with the given sign and rounded magnitude; a magnitude beyond
the range of the format overflows to an infinity. -/
def pack (neg : Bool) (r : Nat × Int) : Float64 :=
  if h : r.1 < 2 ^ 53 ∧ -1074 ≤ r.2 ∧ r.2 ≤ 971 then Float64.finite neg r.1 r.2 h
  else Float64.inf neg

/-- The product `a * b` of two `float64` values. -/
def Float64.mul : Float64 → Float64 → Float64
  | Float64.nan, _ => Float64.nan
  | _, Float64.nan => Float64.nan
  | Float64.inf s, Float64.inf s' => Float64.inf (xor s s')
  | Float64.inf s, Float64.finite s' m _ _ =>
      if m = 0 then Float64.nan else Float64.inf (xor s s')
  | Float64.finite s m _ _, Float64.inf s' =>
      if m = 0 then Float64.nan else Float64.inf (xor s s')
  | Float64.finite s m e _, Float64.finite s' m' e' _ =>
      pack (xor s s') (roundMag (m * m') (e + e'))

/-- The comparison `a <= b`; false when an operand is a NaN. -/
def Float64.le : Float64 → Float64 → Bool
  | Float64.nan, _ => false
  | _, Float64.nan => false
  | Float64.inf true, _ => true
  | _, Float64.inf false => true
  | Float64.inf false, _ => false
  | _, Float64.inf true => false
  | Float64.finite s m e h, Float64.finite s' m' e' h' =>
      decide ((Float64.finite s m e h).toRat ≤ (Float64.finite s' m' e' h').toRat)

/-- The comparison `a < b`; false when an operand is a NaN. -/
def Float64.lt : Float64 → Float64 → Bool
  | Float64.nan, _ => false
  | _, Float64.nan => false
  | Float64.inf false, _ => false
  | _, Float64.inf true => false
  | Float64.inf true, _ => true
  | _, Float64.inf false => true
  | Float64.finite s m e h, Float64.finite s' m' e' h' =>
      decide ((Float64.finite s m e h).toRat < (Float64.finite s' m' e' h').toRat)

/-- The constant `0`. -/
def Float64.zero : Float64 :=
  Float64.finite false 0 0 (by decide)

/-- The constant `0.9` as a `float64`: the value nearest to 9/10,
`0x3FECCCCCCCCCCCCD`. -/
def const0_9 : Float64 :=
  Float64.finite false 8106479329266893 (-53) (by decide)

/-- The constant `0.8` as a `float64`: the value nearest to 8/10,
`0x3FE999999999999A`. -/
def const0_8 : Float64 :=
  Float64.finite false 7205759403792794 (-53) (by decide)

/-- The constant `3000` as a `float64`. -/
def const3000 : Float64 :=
  Float64.finite false 3000 0 (by decide)

/-- Two decimal digits, with a leading zero below ten. -/
def twoDigits (n : Nat) : String :=
  if n < 10 then "0" ++ Nat.repr n else Nat.repr n

/-- The verb `%.2f` of `fmt.Printf`: the value in decimal with two digits
after the point, the exact binary value being rounded to nearest, a tie going
to the even digit. -/
def fmtFixed2 : Float64 → String
  | Float64.nan => "NaN"
  | Float64.inf false => "+Inf"
  | Float64.inf true => "-Inf"
  | Float64.finite s m e _ =>
      let h := if 0 ≤ e then m * 100 * 2 ^ e.toNat else shiftRoundEven (m * 100) (-e).toNat
      (if s then "-" else "") ++ Nat.repr (h / 100) ++ "." ++ twoDigits (h % 100)

/-- The number `m * 2^t` of a rounded magnitude `(m, t)`. -/
def magVal (r : Nat × Int) : ℚ :=
  (r.1 : ℚ) * (2 : ℚ) ^ r.2

/-- The magnitudes of the `float64` format with no bound on the exponent from
above: `a * 2^b` with `a` below `2^53` and `b` at least -1074. -/
def Representable (f : ℚ) : Prop :=
  ∃ (a : Nat) (b : Int), a < 2 ^ 53 ∧ -1074 ≤ b ∧ f = (a : ℚ) * (2 : ℚ) ^ b

/-- The smallest positive normal `float64`, `2^-1022`. -/
def minNormal : Float64 :=
  Float64.finite false 1 (-1022) (by decide)

/-- The smallest positive `float64`, `2^-1074`. -/
def minSubnormal : Float64 :=
  Float64.finite false 1 (-1074) (by decide)

/-- The largest negative normal `float64`, `-2^-1022`. -/
def negMinNormal : Float64 :=
  Float64.finite true 1 (-1022) (by decide)

/-! ## OCP -/

namespace OcpOriginal

structure Product where
  Name : String
  Price : Float64
deriving DecidableEq

/-- Source: `CalculateDiscount`: `return p.Price * 0.9`. -/
def CalculateDiscount (p : Product) : Float64 :=
  p.Price.mul const0_9

/-- The body of `main`, printing with
`fmt.Printf("Preço com desconto: %.2f\n", discount)`. -/
def main (out : Stdout) : Stdout :=
  let p : Product := { Name := "Notebook", Price := const3000 }
  let discount := CalculateDiscount p
  out ++ "Preço com desconto: " ++ fmtFixed2 discount ++ "\n"

end OcpOriginal

namespace OcpRefactor

structure Product where
  Name : String
  Price : Float64
deriving DecidableEq

/-- The method set of the interface `DiscountStrategy`. -/
structure DiscountStrategy where
  Apply : Product → Float64

structure DefaultDiscount where
deriving DecidableEq

/-- Source: `DefaultDiscount.Apply`: `return p.Price * 0.9`. -/
def DefaultDiscount.Apply (_d : DefaultDiscount) (p : Product) : Float64 :=
  p.Price.mul const0_9

structure SpecialDiscount where
deriving DecidableEq

/-- Source: `SpecialDiscount.Apply`: `return p.Price * 0.8`. -/
def SpecialDiscount.Apply (_s : SpecialDiscount) (p : Product) : Float64 :=
  p.Price.mul const0_8

def DefaultDiscount.toDiscountStrategy (d : DefaultDiscount) : DiscountStrategy :=
  { Apply := d.Apply }

def SpecialDiscount.toDiscountStrategy (s : SpecialDiscount) : DiscountStrategy :=
  { Apply := s.Apply }

/-- The body of `main`: the two `fmt.Printf` calls, each on the result of
`strategy.Apply(p)`. -/
def main (out : Stdout) : Stdout :=
  let p : Product := { Name := "Notebook", Price := const3000 }
  let strategy : DiscountStrategy := DefaultDiscount.toDiscountStrategy {}
  let out := out ++ "Preço com desconto padrão: " ++ fmtFixed2 (strategy.Apply p) ++ "\n"
  let strategy : DiscountStrategy := SpecialDiscount.toDiscountStrategy {}
  out ++ "Preço com desconto especial: " ++ fmtFixed2 (strategy.Apply p) ++ "\n"

end OcpRefactor

/-! ## Theorems -/

section Rounding

theorem bitLengthAux_zero (fuel : Nat) : bitLengthAux fuel 0 = 0 := by
  cases fuel <;> simp [bitLengthAux]

theorem bitLengthAux_bounds : ∀ (fuel n : Nat), n ≤ fuel → 0 < n →
    2 ^ (bitLengthAux fuel n - 1) ≤ n ∧ n < 2 ^ bitLengthAux fuel n ∧ 0 < bitLengthAux fuel n := by
  intro fuel
  induction fuel with
  | zero => intro n h1 h2; omega
  | succ f ih =>
    intro n hn hpos
    have hne : n ≠ 0 := by omega
    simp only [bitLengthAux, hne, if_false]
    by_cases h2 : n / 2 = 0
    · have : n = 1 := by omega
      subst this
      simp [h2, bitLengthAux_zero]
    · have hle : n / 2 ≤ f := by omega
      obtain ⟨h3, h4, h5⟩ := ih (n / 2) hle (by omega)
      refine ⟨?_, ?_, by omega⟩
      · have : bitLengthAux f (n / 2) + 1 - 1 = (bitLengthAux f (n / 2) - 1) + 1 := by omega
        rw [this, pow_succ]
        omega
      · rw [pow_succ]
        omega

theorem bitLength_bounds (n : Nat) (h : 0 < n) :
    2 ^ (bitLength n - 1) ≤ n ∧ n < 2 ^ bitLength n ∧ 0 < bitLength n :=
  bitLengthAux_bounds n n le_rfl h

theorem shiftRoundEven_near (n s : Nat) :
    2 * (shiftRoundEven n s * 2 ^ s) ≤ 2 * n + 2 ^ s ∧
    2 * n ≤ 2 * (shiftRoundEven n s * 2 ^ s) + 2 ^ s := by
  have hdm := Nat.div_add_mod n (2 ^ s)
  have hlt : n % 2 ^ s < 2 ^ s := Nat.mod_lt _ (by positivity)
  rw [Nat.mul_comm] at hdm
  simp only [shiftRoundEven]
  generalize n / 2 ^ s = q at *
  generalize n % 2 ^ s = r at *
  generalize hP : 2 ^ s = P at *
  split_ifs with h1 h2 h3 <;> (try simp only [add_mul, one_mul]) <;>
    generalize q * P = X at * <;> omega

theorem shiftRoundEven_ge (n s : Nat) : n / 2 ^ s ≤ shiftRoundEven n s := by
  simp only [shiftRoundEven]
  split_ifs <;> omega

theorem shiftRoundEven_le (n s : Nat) : shiftRoundEven n s ≤ n / 2 ^ s + 1 := by
  simp only [shiftRoundEven]
  split_ifs <;> omega

theorem two_zpow_pos (z : Int) : (0 : ℚ) < (2 : ℚ) ^ z :=
  zpow_pos (by norm_num) z

theorem two_zpow_add (a b : Int) : (2 : ℚ) ^ (a + b) = (2 : ℚ) ^ a * (2 : ℚ) ^ b :=
  zpow_add₀ (by norm_num) a b

theorem two_zpow_natCast (k : Nat) : (2 : ℚ) ^ (k : Int) = ((2 ^ k : Nat) : ℚ) := by
  rw [zpow_natCast]; push_cast; rfl

theorem targetExp_ge (n : Nat) (e : Int) : -1074 ≤ targetExp n e :=
  le_max_right _ _

theorem targetExp_ge_len (n : Nat) (e : Int) : e + (bitLength n : Int) - 53 ≤ targetExp n e :=
  le_max_left _ _

theorem targetExp_eq_of_gt (n : Nat) (e : Int) (h : -1074 < targetExp n e) :
    targetExp n e = e + (bitLength n : Int) - 53 := by
  unfold targetExp at *
  rcases max_cases (e + (bitLength n : Int) - 53) (-1074) with ⟨h1, _⟩ | ⟨h1, _⟩
  · exact h1
  · rw [h1] at h; omega

theorem roundMag_of_pos (n : Nat) (e : Int) (hn : 0 < n) :
    roundMag n e =
      if targetExp n e ≤ e then (n * 2 ^ (e - targetExp n e).toNat, targetExp n e)
      else if shiftRoundEven n (targetExp n e - e).toNat = 2 ^ 53 then
        (2 ^ 52, targetExp n e + 1)
      else (shiftRoundEven n (targetExp n e - e).toNat, targetExp n e) := by
  have hne : n ≠ 0 := by omega
  simp only [roundMag, hne, if_false]

/-- What `roundMag` returns for a non-zero magnitude. -/
theorem roundMag_spec (n : Nat) (e : Int) (hn : 0 < n) :
    ∃ k : Nat,
      magVal (roundMag n e) = (k : ℚ) * (2 : ℚ) ^ targetExp n e ∧
      |(k : ℚ) * (2 : ℚ) ^ targetExp n e - (n : ℚ) * (2 : ℚ) ^ e| ≤ (2 : ℚ) ^ targetExp n e / 2 ∧
      (roundMag n e).1 < 2 ^ 53 ∧ -1074 ≤ (roundMag n e).2 ∧
      ((roundMag n e).2 = -1074 ∨ 2 ^ 52 ≤ (roundMag n e).1) ∧
      (-1074 < targetExp n e → (2 : ℚ) ^ (targetExp n e + 52) ≤ (n : ℚ) * (2 : ℚ) ^ e) := by
  obtain ⟨hlo, hhi, hLpos⟩ := bitLength_bounds n hn
  have hge := targetExp_ge n e
  have hgelen := targetExp_ge_len n e
  have heq := targetExp_eq_of_gt n e
  rw [roundMag_of_pos n e hn]
  generalize targetExp n e = t at *
  generalize hL : bitLength n = L at *
  -- the lower bound on the magnitude, used in both cases
  have hG : -1074 < t → (2 : ℚ) ^ (t + 52) ≤ (n : ℚ) * (2 : ℚ) ^ e := by
    intro ht
    have h1 : t + 52 = ((L - 1 : Nat) : Int) + e := by
      have := heq ht; omega
    rw [h1, two_zpow_add, two_zpow_natCast]
    exact mul_le_mul_of_nonneg_right (by exact_mod_cast hlo) (two_zpow_pos e).le
  by_cases hc : t ≤ e
  · -- the magnitude is representable as it stands
    rw [if_pos hc]
    obtain ⟨d, hd⟩ : ∃ d : Nat, e = t + d := ⟨(e - t).toNat, by omega⟩
    have hdn : (e - t).toNat = d := by omega
    rw [hdn]
    have hLd : L + d ≤ 53 := by omega
    refine ⟨n * 2 ^ d, ?_, ?_, ?_, hge, ?_, hG⟩
    · simp [magVal]
    · have : ((n * 2 ^ d : Nat) : ℚ) * (2 : ℚ) ^ t - (n : ℚ) * (2 : ℚ) ^ e = 0 := by
        rw [hd, two_zpow_add, two_zpow_natCast]; push_cast; ring
      rw [this, abs_zero]
      exact (div_pos (two_zpow_pos t) (by norm_num)).le
    · show n * 2 ^ d < 2 ^ 53
      calc n * 2 ^ d < 2 ^ L * 2 ^ d := Nat.mul_lt_mul_of_pos_right hhi (by positivity)
        _ = 2 ^ (L + d) := (pow_add 2 L d).symm
        _ ≤ 2 ^ 53 := Nat.pow_le_pow_right (by norm_num) hLd
    · by_cases ht : t = -1074
      · exact Or.inl ht
      · right
        have ht2 := heq (by omega)
        have hd2 : (L - 1) + d = 52 := by omega
        show 2 ^ 52 ≤ n * 2 ^ d
        calc 2 ^ 52 = 2 ^ (L - 1) * 2 ^ d := by rw [← pow_add, hd2]
          _ ≤ n * 2 ^ d := Nat.mul_le_mul_right _ hlo
  · -- low bits are rounded away
    rw [if_neg hc]
    obtain ⟨s, hs⟩ : ∃ s : Nat, t = e + s := ⟨(t - e).toNat, by omega⟩
    have hsn : (t - e).toNat = s := by omega
    rw [hsn]
    have hLs : L ≤ 53 + s := by omega
    obtain ⟨hn1, hn2⟩ := shiftRoundEven_near n s
    have hqlt : n / 2 ^ s < 2 ^ 53 := by
      rw [Nat.div_lt_iff_lt_mul (by positivity)]
      calc n < 2 ^ L := hhi
        _ ≤ 2 ^ (53 + s) := Nat.pow_le_pow_right (by norm_num) hLs
        _ = 2 ^ 53 * 2 ^ s := pow_add 2 53 s
    have hmle := shiftRoundEven_le n s
    have hmge := shiftRoundEven_ge n s
    generalize shiftRoundEven n s = m0 at *
    have hnear : |(m0 : ℚ) * (2 : ℚ) ^ t - (n : ℚ) * (2 : ℚ) ^ e| ≤ (2 : ℚ) ^ t / 2 := by
      have he := two_zpow_pos e
      have h1 : (m0 : ℚ) * (2 : ℚ) ^ t - (n : ℚ) * (2 : ℚ) ^ e
          = ((m0 : ℚ) * ((2 ^ s : Nat) : ℚ) - n) * (2 : ℚ) ^ e := by
        rw [hs, two_zpow_add, two_zpow_natCast]; ring
      have h2 : (2 : ℚ) ^ t / 2 = (((2 ^ s : Nat) : ℚ) / 2) * (2 : ℚ) ^ e := by
        rw [hs, two_zpow_add, two_zpow_natCast]; ring
      rw [h1, h2, abs_mul, abs_of_pos he]
      apply mul_le_mul_of_nonneg_right _ he.le
      have q1 : (2 : ℚ) * ((m0 : ℚ) * ((2 ^ s : Nat) : ℚ)) ≤ 2 * n + ((2 ^ s : Nat) : ℚ) := by
        exact_mod_cast hn1
      have q2 : (2 : ℚ) * n ≤ 2 * ((m0 : ℚ) * ((2 ^ s : Nat) : ℚ)) + ((2 ^ s : Nat) : ℚ) := by
        exact_mod_cast hn2
      rw [abs_le]; constructor <;> linarith
    refine ⟨m0, ?_, hnear, ?_, ?_, ?_, hG⟩
    · by_cases h53 : m0 = 2 ^ 53
      · rw [if_pos h53, h53]
        simp only [magVal]
        rw [two_zpow_add]; push_cast; norm_num; ring
      · rw [if_neg h53]; rfl
    · by_cases h53 : m0 = 2 ^ 53
      · rw [if_pos h53]; norm_num
      · rw [if_neg h53]; show m0 < 2 ^ 53; omega
    · by_cases h53 : m0 = 2 ^ 53
      · rw [if_pos h53]; show -1074 ≤ t + 1; omega
      · rw [if_neg h53]; exact hge
    · by_cases h53 : m0 = 2 ^ 53
      · rw [if_pos h53]; right; exact le_rfl
      · rw [if_neg h53]
        by_cases ht : t = -1074
        · exact Or.inl ht
        · right
          have ht2 := heq (by omega)
          have hs2 : L - 1 = 52 + s := by omega
          show 2 ^ 52 ≤ m0
          have : 2 ^ 52 ≤ n / 2 ^ s := by
            rw [Nat.le_div_iff_mul_le (by positivity), ← pow_add, ← hs2]
            exact hlo
          omega

theorem magVal_nonneg (r : Nat × Int) : 0 ≤ magVal r :=
  mul_nonneg (Nat.cast_nonneg _) (two_zpow_pos _).le

theorem roundMag_zero (e : Int) : roundMag 0 e = (0, -1074) := by
  simp [roundMag]

theorem roundMag_representable (n : Nat) (e : Int) : Representable (magVal (roundMag n e)) := by
  rcases Nat.eq_zero_or_pos n with h | h
  · subst h
    exact ⟨0, -1074, by norm_num, le_rfl, by simp [roundMag_zero, magVal]⟩
  · obtain ⟨k, -, -, hB, hT, -, -⟩ := roundMag_spec n e h
    exact ⟨(roundMag n e).1, (roundMag n e).2, hB, hT, rfl⟩

/-- Among the multiples of `u`, one within `u / 2` of `x` is a nearest one. -/
theorem nearest_among_multiples (k j : Nat) (u x : ℚ) (hu : 0 < u)
    (hnear : |(k : ℚ) * u - x| ≤ u / 2) : |(k : ℚ) * u - x| ≤ |(j : ℚ) * u - x| := by
  by_contra hcon
  push_neg at hcon
  have h1 : |(j : ℚ) * u - x| < u / 2 := lt_of_lt_of_le hcon hnear
  rw [abs_lt] at h1
  rw [abs_le] at hnear
  have hjk : j = k := by
    rcases lt_trichotomy j k with h | h | h
    · exfalso
      have : (j : ℚ) + 1 ≤ k := by exact_mod_cast h
      nlinarith
    · exact h
    · exfalso
      have : (k : ℚ) + 1 ≤ j := by exact_mod_cast h
      nlinarith
  subst hjk
  exact lt_irrefl _ hcon

/-- The rounded magnitude is a representable magnitude nearest to the exact one. -/
theorem roundMag_nearest (n : Nat) (e : Int) (f : ℚ) (hf : Representable f) :
    |magVal (roundMag n e) - (n : ℚ) * (2 : ℚ) ^ e| ≤ |f - (n : ℚ) * (2 : ℚ) ^ e| := by
  rcases Nat.eq_zero_or_pos n with h | h
  · subst h
    simp [roundMag_zero, magVal]
  · obtain ⟨k, hval, hnear, -, -, -, hG⟩ := roundMag_spec n e h
    obtain ⟨a, b, ha, hb, rfl⟩ := hf
    rw [hval]
    have hge := targetExp_ge n e
    generalize targetExp n e = t at *
    have hu := two_zpow_pos t
    by_cases hbt : t ≤ b
    · obtain ⟨d, hd⟩ : ∃ d : Nat, b = t + d := ⟨(b - t).toNat, by omega⟩
      have : (a : ℚ) * (2 : ℚ) ^ b = ((a * 2 ^ d : Nat) : ℚ) * (2 : ℚ) ^ t := by
        rw [hd, two_zpow_add, two_zpow_natCast]; push_cast; ring
      rw [this]
      exact nearest_among_multiples k _ _ _ hu hnear
    · have ht : -1074 < t := by omega
      have hx := hG ht
      have hB : (2 : ℚ) ^ (t + 52) = ((2 ^ 52 : Nat) : ℚ) * (2 : ℚ) ^ t := by
        rw [add_comm, two_zpow_add]
        norm_num
      have hfB : (a : ℚ) * (2 : ℚ) ^ b < (2 : ℚ) ^ (t + 52) := by
        have h1 : (a : ℚ) < 2 ^ 53 := by exact_mod_cast ha
        have h2 : (2 : ℚ) ^ b ≤ (2 : ℚ) ^ (t - 1) := zpow_le_zpow_right₀ (by norm_num) (by omega)
        have h3 : (2 : ℚ) ^ (t + 52) = 2 ^ 53 * (2 : ℚ) ^ (t - 1) := by
          have : t + 52 = 53 + (t - 1) := by ring
          rw [this, two_zpow_add]; norm_num
        rw [h3]
        calc (a : ℚ) * (2 : ℚ) ^ b ≤ (a : ℚ) * (2 : ℚ) ^ (t - 1) :=
              mul_le_mul_of_nonneg_left h2 (Nat.cast_nonneg _)
          _ < 2 ^ 53 * (2 : ℚ) ^ (t - 1) := mul_lt_mul_of_pos_right h1 (two_zpow_pos _)
      have h4 := nearest_among_multiples k (2 ^ 52) _ ((n : ℚ) * (2 : ℚ) ^ e) hu hnear
      rw [← hB] at h4
      have h5 : |(2 : ℚ) ^ (t + 52) - (n : ℚ) * (2 : ℚ) ^ e|
          = (n : ℚ) * (2 : ℚ) ^ e - (2 : ℚ) ^ (t + 52) := by
        rw [abs_sub_comm, abs_of_nonneg (by linarith)]
      have h6 : |(a : ℚ) * (2 : ℚ) ^ b - (n : ℚ) * (2 : ℚ) ^ e|
          = (n : ℚ) * (2 : ℚ) ^ e - (a : ℚ) * (2 : ℚ) ^ b := by
        rw [abs_sub_comm, abs_of_nonneg (by linarith)]
      rw [h6]; rw [h5] at h4; linarith

/-- Rounding does not step over a representable magnitude above. -/
theorem roundMag_le_of_le (n : Nat) (e : Int) (f : ℚ) (hf : Representable f)
    (h : (n : ℚ) * (2 : ℚ) ^ e ≤ f) : magVal (roundMag n e) ≤ f := by
  have hN := roundMag_nearest n e f hf
  by_contra hcon
  push_neg at hcon
  rw [abs_of_nonneg (by linarith), abs_of_nonneg (by linarith)] at hN
  linarith

/-- Rounding does not step over a representable magnitude below. -/
theorem le_roundMag_of_le (n : Nat) (e : Int) (f : ℚ) (hf : Representable f)
    (h : f ≤ (n : ℚ) * (2 : ℚ) ^ e) : f ≤ magVal (roundMag n e) := by
  have hN := roundMag_nearest n e f hf
  by_contra hcon
  push_neg at hcon
  rw [abs_sub_comm, abs_of_nonneg (by linarith), abs_sub_comm f, abs_of_nonneg (by linarith)] at hN
  linarith

/-- Rounding is monotone. -/
theorem roundMag_mono (n : Nat) (e : Int) (n' : Nat) (e' : Int)
    (h : (n : ℚ) * (2 : ℚ) ^ e < (n' : ℚ) * (2 : ℚ) ^ e') :
    magVal (roundMag n e) ≤ magVal (roundMag n' e') := by
  have h1 := roundMag_nearest n e _ (roundMag_representable n' e')
  have h2 := roundMag_nearest n' e' _ (roundMag_representable n e)
  by_contra hcon
  push_neg at hcon
  rcases abs_cases (magVal (roundMag n e) - (n : ℚ) * (2 : ℚ) ^ e) with ⟨a1, _⟩ | ⟨a1, _⟩ <;>
  rcases abs_cases (magVal (roundMag n' e') - (n : ℚ) * (2 : ℚ) ^ e) with ⟨a2, _⟩ | ⟨a2, _⟩ <;>
  rcases abs_cases (magVal (roundMag n' e') - (n' : ℚ) * (2 : ℚ) ^ e') with ⟨a3, _⟩ | ⟨a3, _⟩ <;>
  rcases abs_cases (magVal (roundMag n e) - (n' : ℚ) * (2 : ℚ) ^ e') with ⟨a4, _⟩ | ⟨a4, _⟩ <;>
  rw [a1, a2] at h1 <;> rw [a3, a4] at h2 <;> linarith

theorem Float64.mul_finite (s : Bool) (m : Nat) (e : Int) (wf) (s' : Bool) (m' : Nat) (e' : Int)
    (wf') : (Float64.finite s m e wf).mul (Float64.finite s' m' e' wf')
      = pack (xor s s') (roundMag (m * m') (e + e')) :=
  rfl

theorem pack_of_bounds (neg : Bool) (r : Nat × Int)
    (h : r.1 < 2 ^ 53 ∧ -1074 ≤ r.2 ∧ r.2 ≤ 971) : pack neg r = Float64.finite neg r.1 r.2 h := by
  unfold pack
  rw [dif_pos h]

theorem Float64.le_finite (s : Bool) (m : Nat) (e : Int) (wf) (s' : Bool) (m' : Nat) (e' : Int)
    (wf') : (Float64.finite s m e wf).le (Float64.finite s' m' e' wf') = true ↔
      (Float64.finite s m e wf).toRat ≤ (Float64.finite s' m' e' wf').toRat := by
  simp [Float64.le]

theorem Float64.lt_finite (s : Bool) (m : Nat) (e : Int) (wf) (s' : Bool) (m' : Nat) (e' : Int)
    (wf') : (Float64.finite s m e wf).lt (Float64.finite s' m' e' wf') = true ↔
      (Float64.finite s m e wf).toRat < (Float64.finite s' m' e' wf').toRat := by
  simp [Float64.lt]

theorem representable_of_wf (m : Nat) (e : Int) (wf : m < 2 ^ 53 ∧ -1074 ≤ e ∧ e ≤ 971) :
    Representable ((m : ℚ) * (2 : ℚ) ^ e) :=
  ⟨m, e, wf.1, wf.2.1, rfl⟩

/-- The exact product of a magnitude `m * 2^e` and a factor `c / 2^53`. -/
theorem exact_product (m c : Nat) (e : Int) :
    ((m * c : Nat) : ℚ) * (2 : ℚ) ^ (e + -53) = (m : ℚ) * (2 : ℚ) ^ e * ((c : ℚ) / 2 ^ 53) := by
  rw [two_zpow_add]
  have : (2 : ℚ) ^ (-53 : Int) = 1 / 2 ^ 53 := by
    rw [zpow_neg, one_div]; norm_cast
  rw [this]; push_cast; ring

/-- Multiplying a finite magnitude by a factor `c / 2^53` not above one stays
within the format and does not go above the magnitude. -/
theorem scaled_bounds (m c : Nat) (e : Int) (wf : m < 2 ^ 53 ∧ -1074 ≤ e ∧ e ≤ 971)
    (hc : c ≤ 2 ^ 53) :
    ((roundMag (m * c) (e + -53)).1 < 2 ^ 53 ∧ -1074 ≤ (roundMag (m * c) (e + -53)).2 ∧
      (roundMag (m * c) (e + -53)).2 ≤ 971) ∧
    magVal (roundMag (m * c) (e + -53)) ≤ (m : ℚ) * (2 : ℚ) ^ e := by
  have hpe := two_zpow_pos e
  have hle : magVal (roundMag (m * c) (e + -53)) ≤ (m : ℚ) * (2 : ℚ) ^ e := by
    apply roundMag_le_of_le _ _ _ (representable_of_wf m e wf)
    rw [exact_product]
    have h1 : (c : ℚ) / 2 ^ 53 ≤ 1 := by
      rw [div_le_one (by positivity)]; exact_mod_cast hc
    have h2 : 0 ≤ (m : ℚ) * (2 : ℚ) ^ e := mul_nonneg (Nat.cast_nonneg _) hpe.le
    nlinarith
  refine ⟨?_, hle⟩
  rcases Nat.eq_zero_or_pos (m * c) with h0 | hpos
  · rw [h0, roundMag_zero]; norm_num
  · obtain ⟨k, -, -, hB, hT, hC, -⟩ := roundMag_spec (m * c) (e + -53) hpos
    refine ⟨hB, hT, ?_⟩
    by_contra hcon
    push_neg at hcon
    rcases hC with hC | hC
    · omega
    · have h1 : (2 : ℚ) ^ (972 : Int) ≤ (2 : ℚ) ^ (roundMag (m * c) (e + -53)).2 :=
        zpow_le_zpow_right₀ (by norm_num) (by omega)
      have h2 : ((2 ^ 52 : Nat) : ℚ) ≤ ((roundMag (m * c) (e + -53)).1 : ℚ) := by
        exact_mod_cast hC
      have h3 : ((2 ^ 52 : Nat) : ℚ) * (2 : ℚ) ^ (972 : Int)
          ≤ magVal (roundMag (m * c) (e + -53)) := by
        unfold magVal
        exact mul_le_mul h2 h1 (two_zpow_pos _).le (Nat.cast_nonneg _)
      have h4 : (2 : ℚ) ^ e ≤ (2 : ℚ) ^ (971 : Int) :=
        zpow_le_zpow_right₀ (by norm_num) wf.2.2
      have h5 : (m : ℚ) < ((2 ^ 53 : Nat) : ℚ) := by exact_mod_cast wf.1
      have h6 : (m : ℚ) * (2 : ℚ) ^ e < ((2 ^ 53 : Nat) : ℚ) * (2 : ℚ) ^ (971 : Int) := by
        calc (m : ℚ) * (2 : ℚ) ^ e ≤ (m : ℚ) * (2 : ℚ) ^ (971 : Int) :=
              mul_le_mul_of_nonneg_left h4 (Nat.cast_nonneg _)
          _ < ((2 ^ 53 : Nat) : ℚ) * (2 : ℚ) ^ (971 : Int) :=
              mul_lt_mul_of_pos_right h5 (two_zpow_pos _)
      have h7 : ((2 ^ 53 : Nat) : ℚ) * (2 : ℚ) ^ (971 : Int)
          = ((2 ^ 52 : Nat) : ℚ) * (2 : ℚ) ^ (972 : Int) := by
        have : (972 : Int) = 1 + 971 := by norm_num
        rw [this, two_zpow_add]; norm_num
      linarith

/-- The product of a finite value and a constant `c / 2^53` not above one is
finite, with the sign of the value and the rounded magnitude. -/
theorem mul_const_eq (s : Bool) (m : Nat) (e : Int) (wf) (c : Nat) (wfc) (hc : c ≤ 2 ^ 53) :
    (Float64.finite s m e wf).mul (Float64.finite false c (-53) wfc)
      = Float64.finite s (roundMag (m * c) (e + -53)).1 (roundMag (m * c) (e + -53)).2
          (scaled_bounds m c e wf hc).1 := by
  rw [Float64.mul_finite, Bool.xor_false]
  exact pack_of_bounds _ _ _

theorem toRat_finite (s : Bool) (m : Nat) (e : Int) (wf) :
    (Float64.finite s m e wf).toRat = (if s then -1 else 1) * magVal (m, e) :=
  rfl

/-- Magnitudes: rounding `0.8 * x` gives at most rounding `0.9 * x`, which gives
at most `x`. -/
theorem discount_mag_order (m : Nat) (e : Int) (wf : m < 2 ^ 53 ∧ -1074 ≤ e ∧ e ≤ 971) :
    magVal (roundMag (m * 7205759403792794) (e + -53))
      ≤ magVal (roundMag (m * 8106479329266893) (e + -53)) ∧
    magVal (roundMag (m * 8106479329266893) (e + -53)) ≤ (m : ℚ) * (2 : ℚ) ^ e := by
  refine ⟨?_, (scaled_bounds m 8106479329266893 e wf (by norm_num)).2⟩
  rcases Nat.eq_zero_or_pos m with h | h
  · subst h; simp
  · apply roundMag_mono
    apply mul_lt_mul_of_pos_right _ (two_zpow_pos _)
    have : m * 7205759403792794 < m * 8106479329266893 := by omega
    exact_mod_cast this

/-- A magnitude of at least `2^-1022` has a form with a full 53-bit significand. -/
theorem normal_form (m : Nat) (e : Int) (wf : m < 2 ^ 53 ∧ -1074 ≤ e ∧ e ≤ 971)
    (hnorm : (2 : ℚ) ^ (-1022 : Int) ≤ (m : ℚ) * (2 : ℚ) ^ e) :
    ∃ (M : Nat) (T : Int), 2 ^ 52 ≤ M ∧ M < 2 ^ 53 ∧ -1074 ≤ T ∧
      (m : ℚ) * (2 : ℚ) ^ e = (M : ℚ) * (2 : ℚ) ^ T := by
  have hmpos : 0 < m := by
    rcases Nat.eq_zero_or_pos m with h | h
    · subst h
      have := two_zpow_pos (-1022)
      simp at hnorm
      linarith
    · exact h
  obtain ⟨k, -, -, hB, hT, hC, -⟩ := roundMag_spec m e hmpos
  have hN := roundMag_nearest m e _ (representable_of_wf m e wf)
  rw [sub_self, abs_zero] at hN
  have hval : magVal (roundMag m e) = (m : ℚ) * (2 : ℚ) ^ e := by
    have := abs_nonpos_iff.mp hN
    linarith
  refine ⟨(roundMag m e).1, (roundMag m e).2, ?_, hB, hT, hval.symm⟩
  rcases hC with hC | hC
  · by_contra hcon
    push_neg at hcon
    have h1 : ((roundMag m e).1 : ℚ) < ((2 ^ 52 : Nat) : ℚ) := by exact_mod_cast hcon
    have h2 : magVal (roundMag m e) < ((2 ^ 52 : Nat) : ℚ) * (2 : ℚ) ^ (-1074 : Int) := by
      unfold magVal
      rw [hC]
      exact mul_lt_mul_of_pos_right h1 (two_zpow_pos _)
    have h3 : ((2 ^ 52 : Nat) : ℚ) * (2 : ℚ) ^ (-1074 : Int) = (2 : ℚ) ^ (-1022 : Int) := by
      have : (-1022 : Int) = 52 + -1074 := by norm_num
      rw [this, two_zpow_add]; norm_num
    linarith
  · exact hC

/-- Magnitudes of at least `2^-1022`: the two roundings and the magnitude are
strictly ordered. -/
theorem discount_mag_strict (m : Nat) (e : Int) (wf : m < 2 ^ 53 ∧ -1074 ≤ e ∧ e ≤ 971)
    (hnorm : (2 : ℚ) ^ (-1022 : Int) ≤ (m : ℚ) * (2 : ℚ) ^ e) :
    magVal (roundMag (m * 7205759403792794) (e + -53))
      < magVal (roundMag (m * 8106479329266893) (e + -53)) ∧
    magVal (roundMag (m * 8106479329266893) (e + -53)) < (m : ℚ) * (2 : ℚ) ^ e := by
  obtain ⟨M, T, hM1, hM2, hT, hval⟩ := normal_form m e wf hnorm
  have hu := two_zpow_pos T
  have hx8 := exact_product m 7205759403792794 e
  have hx9 := exact_product m 8106479329266893 e
  rw [hval] at hx8 hx9 ⊢
  -- a representable magnitude just below the price
  have hg : Representable (((M - 1 : Nat) : ℚ) * (2 : ℚ) ^ T) :=
    ⟨M - 1, T, by omega, hT, rfl⟩
  have hMc : (M : ℚ) = ((M - 1 : Nat) : ℚ) + 1 := by
    have : M = (M - 1) + 1 := by omega
    exact_mod_cast this
  have h9g : ((m * 8106479329266893 : Nat) : ℚ) * (2 : ℚ) ^ (e + -53)
      ≤ ((M - 1 : Nat) : ℚ) * (2 : ℚ) ^ T := by
    rw [hx9]
    have hnat : M * 8106479329266893 ≤ (M - 1) * 2 ^ 53 := by omega
    have hq : (M : ℚ) * 8106479329266893 ≤ ((M - 1 : Nat) : ℚ) * 2 ^ 53 := by
      exact_mod_cast hnat
    have : (M : ℚ) * (2 : ℚ) ^ T * ((8106479329266893 : Nat) / 2 ^ 53)
        = ((M : ℚ) * 8106479329266893) / 2 ^ 53 * (2 : ℚ) ^ T := by
      push_cast; ring
    rw [this]
    apply mul_le_mul_of_nonneg_right _ hu.le
    rw [div_le_iff₀ (by positivity)]
    exact hq
  have hD := roundMag_le_of_le _ _ _ hg h9g
  -- two neighbouring representable magnitudes between the two exact products
  have hK1 : Representable (((M * 17 / 20 : Nat) : ℚ) * (2 : ℚ) ^ T) :=
    ⟨M * 17 / 20, T, by omega, hT, rfl⟩
  have hK2 : Representable (((M * 17 / 20 + 1 : Nat) : ℚ) * (2 : ℚ) ^ T) :=
    ⟨M * 17 / 20 + 1, T, by omega, hT, rfl⟩
  have h8K : ((m * 7205759403792794 : Nat) : ℚ) * (2 : ℚ) ^ (e + -53)
      ≤ ((M * 17 / 20 : Nat) : ℚ) * (2 : ℚ) ^ T := by
    rw [hx8]
    have hnat : M * 7205759403792794 ≤ (M * 17 / 20) * 2 ^ 53 := by omega
    have hq : (M : ℚ) * 7205759403792794 ≤ ((M * 17 / 20 : Nat) : ℚ) * 2 ^ 53 := by
      exact_mod_cast hnat
    have : (M : ℚ) * (2 : ℚ) ^ T * ((7205759403792794 : Nat) / 2 ^ 53)
        = ((M : ℚ) * 7205759403792794) / 2 ^ 53 * (2 : ℚ) ^ T := by
      push_cast; ring
    rw [this]
    apply mul_le_mul_of_nonneg_right _ hu.le
    rw [div_le_iff₀ (by positivity)]
    exact hq
  have hK9 : ((M * 17 / 20 + 1 : Nat) : ℚ) * (2 : ℚ) ^ T
      ≤ ((m * 8106479329266893 : Nat) : ℚ) * (2 : ℚ) ^ (e + -53) := by
    rw [hx9]
    have hnat : (M * 17 / 20 + 1) * 2 ^ 53 ≤ M * 8106479329266893 := by omega
    have hq : ((M * 17 / 20 + 1 : Nat) : ℚ) * 2 ^ 53 ≤ (M : ℚ) * 8106479329266893 := by
      exact_mod_cast hnat
    have : (M : ℚ) * (2 : ℚ) ^ T * ((8106479329266893 : Nat) / 2 ^ 53)
        = ((M : ℚ) * 8106479329266893) / 2 ^ 53 * (2 : ℚ) ^ T := by
      push_cast; ring
    rw [this]
    apply mul_le_mul_of_nonneg_right _ hu.le
    rw [le_div_iff₀ (by positivity)]
    exact hq
  have hS := roundMag_le_of_le _ _ _ hK1 h8K
  have hD2 := le_roundMag_of_le _ _ _ hK2 hK9
  have hstep : ((M * 17 / 20 : Nat) : ℚ) * (2 : ℚ) ^ T
      < ((M * 17 / 20 + 1 : Nat) : ℚ) * (2 : ℚ) ^ T := by
    apply mul_lt_mul_of_pos_right _ hu
    push_cast; linarith
  constructor
  · linarith
  · rw [hMc]; nlinarith

/-- The order of a `float64` value and its products with `0.9` and `0.8`. -/
theorem discount_order_float (x : Float64) :
    (Float64.zero.le x = true →
      (x.mul const0_8).le (x.mul const0_9) = true ∧ (x.mul const0_9).le x = true) ∧
    (x.le Float64.zero = true →
      x.le (x.mul const0_9) = true ∧ (x.mul const0_9).le (x.mul const0_8) = true) ∧
    (minNormal.le x = true → x.lt (Float64.inf false) = true →
      (x.mul const0_8).lt (x.mul const0_9) = true ∧ (x.mul const0_9).lt x = true) ∧
    (x.le negMinNormal = true → (Float64.inf true).lt x = true →
      x.lt (x.mul const0_9) = true ∧ (x.mul const0_9).lt (x.mul const0_8) = true) := by
  rcases x with ⟨s, m, e, wf⟩ | s | _
  · have h9 := mul_const_eq s m e wf 8106479329266893 (by decide) (by norm_num)
    have h8 := mul_const_eq s m e wf 7205759403792794 (by decide) (by norm_num)
    obtain ⟨hSD, hDP⟩ := discount_mag_order m e wf
    have hstrict := discount_mag_strict m e wf
    have hS0 := magVal_nonneg (roundMag (m * 7205759403792794) (e + -53))
    have hpos := two_zpow_pos (-1022)
    unfold const0_9 const0_8 Float64.zero minNormal negMinNormal
    rw [h9, h8]
    clear h9 h8
    simp only [Float64.le_finite, Float64.lt_finite, toRat_finite]
    have hP : magVal (m, e) = (m : ℚ) * (2 : ℚ) ^ e := rfl
    have h0 : magVal (0, 0) = 0 := by simp [magVal]
    have h1 : magVal (1, -1022) = (2 : ℚ) ^ (-1022 : Int) := by simp [magVal]
    have hS : magVal ((roundMag (m * 7205759403792794) (e + -53)).1,
        (roundMag (m * 7205759403792794) (e + -53)).2)
        = magVal (roundMag (m * 7205759403792794) (e + -53)) := rfl
    have hD : magVal ((roundMag (m * 8106479329266893) (e + -53)).1,
        (roundMag (m * 8106479329266893) (e + -53)).2)
        = magVal (roundMag (m * 8106479329266893) (e + -53)) := rfl
    rw [hP, h0, h1, hS, hD]
    clear hS hD hP h0 h1
    generalize magVal (roundMag (m * 7205759403792794) (e + -53)) = S at *
    generalize magVal (roundMag (m * 8106479329266893) (e + -53)) = D at *
    generalize (m : ℚ) * (2 : ℚ) ^ e = P at *
    cases s
    · simp only [Bool.false_eq_true, if_false, if_true, ↓reduceIte, one_mul, mul_zero]
      refine ⟨fun _ => ⟨hSD, hDP⟩, fun h => ?_, fun h _ => hstrict h, fun h _ => ?_⟩
      · constructor <;> linarith
      · linarith
    · simp only [Bool.false_eq_true, if_false, if_true, ↓reduceIte, one_mul, mul_zero]
      refine ⟨fun h => ?_, fun _ => ?_, fun h _ => ?_, fun h _ => ?_⟩
      · constructor <;> linarith
      · constructor <;> linarith
      · linarith
      · have := hstrict (by linarith)
        constructor <;> linarith
  · cases s <;> simp [Float64.mul, Float64.le, Float64.lt, const0_9, const0_8, Float64.zero,
      minNormal, negMinNormal]
  · simp [Float64.mul, Float64.le, Float64.lt, Float64.zero, minNormal, negMinNormal]

end Rounding

section Lines

/-- A text without a newline, followed by a newline, is one line. -/
theorem splitLines_one_line (l : List Char) (h : ∀ c ∈ l, c ≠ '\n') (cur : List Char) :
    splitLines (l ++ ['\n']) cur = [String.mk (cur.reverse ++ l)] := by
  induction l generalizing cur with
  | nil => simp [splitLines]
  | cons c cs ih =>
    have hc : c ≠ '\n' := h c (List.mem_cons_self _ _)
    have hcs : ∀ d ∈ cs, d ≠ '\n' := fun d hd => h d (List.mem_cons_of_mem _ hd)
    simp only [List.cons_append, splitLines, hc, if_false]
    have := ih hcs (c :: cur)
    simpa using this

theorem outputLines_one_line (text : String) (h : ∀ c ∈ text.data, c ≠ '\n') :
    outputLines (text ++ "\n") = [text] := by
  unfold outputLines
  have : (text ++ "\n").data = text.data ++ ['\n'] := by
    rw [String.data_append]
  rw [this, splitLines_one_line _ h]
  simp

end Lines

section Outputs

/-- C1: in the OCP refactor, for the product with Price 3000 (whatever its
name), `DefaultDiscount.Apply` returns a value that `%.2f` formats as
"2700.00" and `SpecialDiscount.Apply` one that formats as "2400.00"; `main`
prints exactly the lines "Preço com desconto padrão: 2700.00" and
"Preço com desconto especial: 2400.00", in that order. -/
theorem ocpRefactor_prints_2700_then_2400 :
    (∀ name : String,
      fmtFixed2 (OcpRefactor.DefaultDiscount.Apply {} { Name := name, Price := const3000 })
        = "2700.00" ∧
      fmtFixed2 (OcpRefactor.SpecialDiscount.Apply {} { Name := name, Price := const3000 })
        = "2400.00") ∧
    OcpRefactor.main "" =
      "Preço com desconto padrão: 2700.00\nPreço com desconto especial: 2400.00\n" ∧
    outputLines (OcpRefactor.main "") =
      ["Preço com desconto padrão: 2700.00", "Preço com desconto especial: 2400.00"] := by
  have h9 : fmtFixed2 (const3000.mul const0_9) = "2700.00" := by decide
  have h8 : fmtFixed2 (const3000.mul const0_8) = "2400.00" := by decide
  refine ⟨fun _ => ⟨h9, h8⟩, by decide, by decide⟩

/-- C2, as stated, fails: for the name "a\nb" both `Register` methods write
two lines, "Salvando 'a" and "b' no MySQL", not the single line
"Salvando '<name>' no MySQL". -/
theorem dip_register_two_lines_at_newline_name :
    outputLines (DipOriginal.UserService.Register { Repo := {} } "a\nb" "")
      = ["Salvando 'a", "b' no MySQL"] ∧
    DipRefactor.UserService.Register
        { Repo := some (DipRefactor.MySQLRepository.toRepository {}) } "a\nb" ""
      = Except.ok "Salvando 'a\nb' no MySQL\n" ∧
    outputLines "Salvando 'a\nb' no MySQL\n" = ["Salvando 'a", "b' no MySQL"] ∧
    outputLines (DipOriginal.UserService.Register { Repo := {} } "a\nb" "")
      ≠ ["Salvando '" ++ "a\nb" ++ "' no MySQL"] := by
  refine ⟨by decide, rfl, by decide, by decide⟩

/-- C2, amended: for every name, `UserService.Register(name)` of the DIP
refactor, with `Repo` holding a `MySQLRepository` behind the `Repository`
interface, writes the same output as `UserService.Register(name)` of the DIP
original, namely the text "Salvando '<name>' no MySQL" and a newline, which is
that single line when the name has no newline in it; both `main` programs
print "Salvando 'Maria' no MySQL". -/
theorem dip_register_same_output (name : String) (out : Stdout)
    (r : DipRefactor.MySQLRepository) (s : DipOriginal.UserService) :
    DipRefactor.UserService.Register { Repo := some r.toRepository } name out
        = Except.ok (DipOriginal.UserService.Register s name out) ∧
    DipOriginal.UserService.Register s name out
        = out ++ "Salvando '" ++ name ++ "' no MySQL\n" ∧
    DipRefactor.main "" = Except.ok "Salvando 'Maria' no MySQL\n" ∧
    DipOriginal.main "" = "Salvando 'Maria' no MySQL\n" ∧
    outputLines (DipOriginal.main "") = ["Salvando 'Maria' no MySQL"] ∧
    ((∀ c ∈ name.data, c ≠ '\n') →
      outputLines (DipOriginal.UserService.Register s name "")
        = ["Salvando '" ++ name ++ "' no MySQL"]) := by
  refine ⟨rfl, rfl, rfl, by decide, by decide, fun h => ?_⟩
  have e : DipOriginal.UserService.Register s name ""
      = ("Salvando '" ++ name ++ "' no MySQL") ++ "\n" := by
    apply String.ext
    simp [DipOriginal.UserService.Register, DipOriginal.MySQLRepository.Save, String.data_append]
  rw [e]
  apply outputLines_one_line
  intro c hc
  simp only [String.data_append, List.mem_append] at hc
  rcases hc with (hc | hc) | hc
  · revert c; decide
  · exact h c hc
  · revert c; decide

/-- The name "Maria" has no newline in it, and registering it writes the one
line "Salvando 'Maria' no MySQL". -/
theorem dip_register_same_output_at_maria :
    (∀ c ∈ "Maria".data, c ≠ '\n') ∧
    outputLines (DipOriginal.UserService.Register { Repo := {} } "Maria" "")
      = ["Salvando '" ++ "Maria" ++ "' no MySQL"] :=
  ⟨by decide, (dip_register_same_output "Maria" "" {} { Repo := {} }).2.2.2.2.2 (by decide)⟩

/-- C3, as stated, fails: the OCP refactor does not print the lines of the OCP
original, and the LSP refactor does not print the lines of the LSP original. -/
theorem refactor_output_differs_ocp_lsp :
    outputLines (OcpRefactor.main "") ≠ outputLines (OcpOriginal.main "") ∧
    outputLines (LspRefactor.main "") ≠ outputLines (LspOriginal.main "") := by
  constructor <;> decide

/-- C3, amended: for the SRP and the DIP pair the refactored `main` writes
what the original `main` writes; the LSP refactor writes the two lines of the
original followed by "Quack!"; the OCP original writes the one line
"Preço com desconto: 2700.00" where the refactor writes its two lines; and the
ISP refactor writes what the three methods called in the ISP original's
`main` write. -/
theorem refactor_output_by_pair :
    (∀ out, SrpRefactor.main out = SrpOriginal.main out) ∧
    (∀ out, DipRefactor.main out = Except.ok (DipOriginal.main out)) ∧
    (∀ out, LspRefactor.main out = fmtPrintln "Quack!" (LspOriginal.main out)) ∧
    outputLines (LspOriginal.main "") = ["Au au!", "Miau!"] ∧
    outputLines (LspRefactor.main "") = outputLines (LspOriginal.main "") ++ ["Quack!"] ∧
    outputLines (OcpOriginal.main "") = ["Preço com desconto: 2700.00"] ∧
    outputLines (OcpRefactor.main "") =
      ["Preço com desconto padrão: 2700.00", "Preço com desconto especial: 2400.00"] ∧
    IspRefactor.main "" =
      Run.completed (IspOriginal.Human.Eat (IspOriginal.Human.Work (IspOriginal.Robot.Work ""))) := by
  refine ⟨fun _ => rfl, fun _ => rfl, fun _ => rfl, ?_, ?_, ?_, ?_, ?_⟩ <;> decide

/-- C4, as stated, fails: the line written by `EmailService.Send` does not
contain the name "João". -/
theorem srp_send_line_lacks_name :
    outputLines (SrpRefactor.main "") =
      ["Salvando usuário: João, email: joao@email.com",
       "Enviando email para joao@email.com: Bem-vindo!"] ∧
    lineContains "Enviando email para joao@email.com: Bem-vindo!" "João" = false := by
  constructor <;> decide

/-- C4, amended: `UserRepository.Save` followed by `EmailService.Send` for the
user "João" / "joao@email.com" and the message "Bem-vindo!" writes exactly two
lines, the save line and then the send line; the save line contains the name
and the email, the send line contains the email and the message. -/
theorem srp_save_then_send_lines :
    ∃ saveLine sendLine : String,
      outputLines
        (SrpRefactor.EmailService.Send {} { Name := "João", Email := "joao@email.com" }
          "Bem-vindo!"
          (SrpRefactor.UserRepository.Save {} { Name := "João", Email := "joao@email.com" } ""))
        = [saveLine, sendLine] ∧
      outputLines (SrpRefactor.main "") = [saveLine, sendLine] ∧
      lineContains saveLine "João" = true ∧
      lineContains saveLine "joao@email.com" = true ∧
      lineContains sendLine "joao@email.com" = true ∧
      lineContains sendLine "Bem-vindo!" = true := by
  refine ⟨"Salvando usuário: João, email: joao@email.com",
    "Enviando email para joao@email.com: Bem-vindo!", ?_, ?_, ?_, ?_, ?_, ?_⟩ <;> decide

/-- C5: in the LSP refactor, `MakeAnimalSpeak` applied in turn to `Dog{}`,
`Cat{}` and `Duck{}` prints exactly the lines "Au au!", "Miau!", "Quack!" in
that order; the three `Speak` results are pairwise distinct and are the same
for every receiver value. -/
theorem lspRefactor_three_fixed_lines :
    outputLines
      (LspRefactor.MakeAnimalSpeak (LspRefactor.Duck.toAnimal {})
        (LspRefactor.MakeAnimalSpeak (LspRefactor.Cat.toAnimal {})
          (LspRefactor.MakeAnimalSpeak (LspRefactor.Dog.toAnimal {}) "")))
      = ["Au au!", "Miau!", "Quack!"] ∧
    outputLines (LspRefactor.main "") = ["Au au!", "Miau!", "Quack!"] ∧
    (∀ (d : LspRefactor.Dog) (c : LspRefactor.Cat) (k : LspRefactor.Duck),
      d.Speak = "Au au!" ∧ c.Speak = "Miau!" ∧ k.Speak = "Quack!" ∧
      d.Speak ≠ c.Speak ∧ d.Speak ≠ k.Speak ∧ c.Speak ≠ k.Speak) := by
  refine ⟨by decide, by decide, fun _ _ _ => ⟨rfl, rfl, rfl, ?_, ?_, ?_⟩⟩ <;>
    simp [LspRefactor.Dog.Speak, LspRefactor.Cat.Speak, LspRefactor.Duck.Speak]

/-- C6: in the ISP refactor, the method set of `Workable` is `Work` alone, and
no call of `Eat` goes through a `Workable` variable; `Robot` declares `Work`
and no `Eat`; `Human` declares both; `main` prints exactly the lines
"Robô trabalhando", "Humano trabalhando", "Humano comendo", in that order. -/
theorem ispRefactor_capabilities_and_output :
    IspRefactor.Interface.Workable.methodSet = [IspRefactor.Method.Work] ∧
    (∀ t out, IspRefactor.callThrough IspRefactor.Interface.Workable t
      IspRefactor.Method.Eat out = none) ∧
    IspRefactor.StructType.Robot.provides IspRefactor.Method.Work = true ∧
    IspRefactor.StructType.Robot.provides IspRefactor.Method.Eat = false ∧
    IspRefactor.StructType.Human.provides IspRefactor.Method.Work = true ∧
    IspRefactor.StructType.Human.provides IspRefactor.Method.Eat = true ∧
    IspRefactor.main "" =
      Run.completed "Robô trabalhando\nHumano trabalhando\nHumano comendo\n" ∧
    outputLines "Robô trabalhando\nHumano trabalhando\nHumano comendo\n" =
      ["Robô trabalhando", "Humano trabalhando", "Humano comendo"] := by
  refine ⟨rfl, ?_, rfl, rfl, rfl, rfl, by decide, by decide⟩
  intro t out
  cases t <;> rfl

/-- C7, as stated, fails: on the zero value of the DIP refactor's
`UserService`, whose `Repo` is the nil interface, `Register` panics. -/
theorem dipRefactor_register_zero_value_panics :
    DipRefactor.UserService.Register DipRefactor.UserService.zero "Maria" ""
      = Except.error DipRefactor.RuntimeError.nilDereference :=
  rfl

/-- C7, amended: for every `UserService` of the DIP refactor whose `Repo` holds
a `MySQLRepository`, and every name, `Register` completes normally, as it does
for every `UserService` of the DIP original. -/
theorem dip_register_completes (name : String) (out : Stdout)
    (r : DipRefactor.MySQLRepository) (s : DipOriginal.UserService) :
    DipRefactor.UserService.Register { Repo := some r.toRepository } name out
        = Except.ok (out ++ "Salvando '" ++ name ++ "' no MySQL\n") ∧
    DipOriginal.UserService.Register s name out
        = out ++ "Salvando '" ++ name ++ "' no MySQL\n" :=
  ⟨rfl, rfl⟩

/-- C9, as stated, fails: in the ISP original `Robot` declares no `Eat`, so it
does not implement `Worker`, and the program is rejected instead of printing. -/
theorem ispOriginal_robot_lacks_eat :
    IspOriginal.StructType.Robot.provides IspOriginal.Method.Eat = false ∧
    IspOriginal.StructType.Robot.implements IspOriginal.Interface.Worker = false ∧
    IspOriginal.main "" = Run.rejected := by
  refine ⟨rfl, ?_, ?_⟩ <;> decide

/-- C9, amended: in the ISP original the method set of `Worker` is `Work` and
`Eat`; of the types `main` assigns to it, `Human` declares both and `Robot`
declares `Work` only; the three methods `main` calls, `Robot.Work`,
`Human.Work` and `Human.Eat`, write the lines "Robô trabalhando",
"Humano trabalhando", "Humano comendo", in that order. -/
theorem ispOriginal_capabilities :
    IspOriginal.Interface.Worker.methodSet = [IspOriginal.Method.Work, IspOriginal.Method.Eat] ∧
    IspOriginal.StructType.Human.provides IspOriginal.Method.Work = true ∧
    IspOriginal.StructType.Human.provides IspOriginal.Method.Eat = true ∧
    IspOriginal.StructType.Human.implements IspOriginal.Interface.Worker = true ∧
    IspOriginal.StructType.Robot.provides IspOriginal.Method.Work = true ∧
    IspOriginal.StructType.Robot.provides IspOriginal.Method.Eat = false ∧
    outputLines (IspOriginal.Human.Eat (IspOriginal.Human.Work (IspOriginal.Robot.Work "")))
      = ["Robô trabalhando", "Humano trabalhando", "Humano comendo"] := by
  refine ⟨rfl, rfl, rfl, by decide, rfl, rfl, by decide⟩

end Outputs

section Discounts

/-- C8: for every product, `CalculateDiscount` of the OCP original returns the
value that `DefaultDiscount.Apply` of the OCP refactor returns for the same
name and price, namely the `float64` product `p.Price * 0.9` (the constant
being the `float64` nearest to 9/10); the value does not depend on the name. -/
theorem calculateDiscount_eq_defaultDiscount (p : OcpOriginal.Product) :
    OcpOriginal.CalculateDiscount p
      = OcpRefactor.DefaultDiscount.Apply {} { Name := p.Name, Price := p.Price } ∧
    OcpOriginal.CalculateDiscount p = p.Price.mul const0_9 ∧
    (∀ name : String,
      OcpOriginal.CalculateDiscount { Name := name, Price := p.Price }
        = OcpOriginal.CalculateDiscount p ∧
      OcpRefactor.DefaultDiscount.Apply {} { Name := name, Price := p.Price }
        = OcpRefactor.DefaultDiscount.Apply {} { Name := p.Name, Price := p.Price }) ∧
    |const0_9.toRat - 9 / 10| < 1 / 2 ^ 54 := by
  refine ⟨rfl, rfl, fun _ => ⟨rfl, rfl⟩, ?_⟩
  simp only [const0_9, Float64.toRat]
  norm_num [abs_lt]

/-- C10, as stated, fails: for the smallest positive price, `2^-1074`, both
strategies return the price itself, so neither inequality is strict; and for
the price `-2^-1074` the result of the default strategy does not exceed the
price. -/
theorem discount_not_strict_at_min_subnormal :
    Float64.zero.lt minSubnormal = true ∧
    OcpRefactor.DefaultDiscount.Apply {} { Name := "Notebook", Price := minSubnormal }
      = minSubnormal ∧
    OcpRefactor.SpecialDiscount.Apply {} { Name := "Notebook", Price := minSubnormal }
      = minSubnormal ∧
    (OcpRefactor.DefaultDiscount.Apply {} { Name := "Notebook", Price := minSubnormal }).lt
      minSubnormal = false ∧
    (OcpRefactor.SpecialDiscount.Apply {} { Name := "Notebook", Price := minSubnormal }).lt
      (OcpRefactor.DefaultDiscount.Apply {} { Name := "Notebook", Price := minSubnormal })
      = false ∧
    (Float64.finite true 1 (-1074) (by decide)).lt Float64.zero = true ∧
    OcpRefactor.DefaultDiscount.Apply {}
        { Name := "Notebook", Price := Float64.finite true 1 (-1074) (by decide) }
      = Float64.finite true 1 (-1074) (by decide) := by
  have hD : OcpRefactor.DefaultDiscount.Apply {} { Name := "Notebook", Price := minSubnormal }
      = minSubnormal := by decide
  have hS : OcpRefactor.SpecialDiscount.Apply {} { Name := "Notebook", Price := minSubnormal }
      = minSubnormal := by decide
  have hpos := two_zpow_pos (-1074)
  refine ⟨?_, hD, hS, ?_, ?_, ?_, by decide⟩
  · unfold Float64.zero minSubnormal
    rw [Float64.lt_finite]
    simp only [Float64.toRat, Bool.false_eq_true, if_false, Nat.cast_zero, Nat.cast_one,
      zero_mul, one_mul, mul_zero]
    exact hpos
  · rw [hD]
    simp [Float64.lt, minSubnormal]
  · rw [hD, hS]
    simp [Float64.lt, minSubnormal]
  · unfold Float64.zero
    rw [Float64.lt_finite]
    simp only [Float64.toRat, Bool.false_eq_true, if_false, if_true, ↓reduceIte, Nat.cast_zero,
      Nat.cast_one, zero_mul, one_mul, mul_zero]
    linarith

/-- C10, amended: for every product whose price is `>= 0` (as `float64`
values are compared), `SpecialDiscount.Apply(p) <= DefaultDiscount.Apply(p)
<= p.Price`, and both inequalities are strict when the price is finite and at
least `2^-1022`; for a price `<= 0` the order is the reverse one, strict when
the price is finite and at most `-2^-1022`. -/
theorem discount_order (p : OcpRefactor.Product) :
    (Float64.zero.le p.Price = true →
      (OcpRefactor.SpecialDiscount.Apply {} p).le (OcpRefactor.DefaultDiscount.Apply {} p) = true ∧
      (OcpRefactor.DefaultDiscount.Apply {} p).le p.Price = true) ∧
    (p.Price.le Float64.zero = true →
      p.Price.le (OcpRefactor.DefaultDiscount.Apply {} p) = true ∧
      (OcpRefactor.DefaultDiscount.Apply {} p).le (OcpRefactor.SpecialDiscount.Apply {} p) = true) ∧
    (minNormal.le p.Price = true → p.Price.lt (Float64.inf false) = true →
      (OcpRefactor.SpecialDiscount.Apply {} p).lt (OcpRefactor.DefaultDiscount.Apply {} p) = true ∧
      (OcpRefactor.DefaultDiscount.Apply {} p).lt p.Price = true) ∧
    (p.Price.le negMinNormal = true → (Float64.inf true).lt p.Price = true →
      p.Price.lt (OcpRefactor.DefaultDiscount.Apply {} p) = true ∧
      (OcpRefactor.DefaultDiscount.Apply {} p).lt (OcpRefactor.SpecialDiscount.Apply {} p) = true) :=
  discount_order_float p.Price

/-- The order of the discounts at the prices 3000 and -3000, both within the
finite normal range. -/
theorem discount_order_at_3000 :
    (Float64.zero.le const3000 = true ∧ minNormal.le const3000 = true ∧
      const3000.lt (Float64.inf false) = true ∧
      (Float64.finite true 3000 0 (by decide)).le Float64.zero = true ∧
      (Float64.finite true 3000 0 (by decide)).le negMinNormal = true ∧
      (Float64.inf true).lt (Float64.finite true 3000 0 (by decide)) = true) ∧
    ((OcpRefactor.SpecialDiscount.Apply {} { Name := "Notebook", Price := const3000 }).le
        (OcpRefactor.DefaultDiscount.Apply {} { Name := "Notebook", Price := const3000 }) = true ∧
      (OcpRefactor.DefaultDiscount.Apply {} { Name := "Notebook", Price := const3000 }).le
        const3000 = true) ∧
    ((OcpRefactor.SpecialDiscount.Apply {} { Name := "Notebook", Price := const3000 }).lt
        (OcpRefactor.DefaultDiscount.Apply {} { Name := "Notebook", Price := const3000 }) = true ∧
      (OcpRefactor.DefaultDiscount.Apply {} { Name := "Notebook", Price := const3000 }).lt
        const3000 = true) ∧
    ((Float64.finite true 3000 0 (by decide)).le
        (OcpRefactor.DefaultDiscount.Apply {}
          { Name := "Notebook", Price := Float64.finite true 3000 0 (by decide) }) = true ∧
      (OcpRefactor.DefaultDiscount.Apply {}
          { Name := "Notebook", Price := Float64.finite true 3000 0 (by decide) }).le
        (OcpRefactor.SpecialDiscount.Apply {}
          { Name := "Notebook", Price := Float64.finite true 3000 0 (by decide) }) = true) ∧
    ((Float64.finite true 3000 0 (by decide)).lt
        (OcpRefactor.DefaultDiscount.Apply {}
          { Name := "Notebook", Price := Float64.finite true 3000 0 (by decide) }) = true ∧
      (OcpRefactor.DefaultDiscount.Apply {}
          { Name := "Notebook", Price := Float64.finite true 3000 0 (by decide) }).lt
        (OcpRefactor.SpecialDiscount.Apply {}
          { Name := "Notebook", Price := Float64.finite true 3000 0 (by decide) }) = true) := by
  have hsmall : (2 : ℚ) ^ (-1022 : Int) ≤ 1 := by
    have := zpow_le_zpow_right₀ (show (1 : ℚ) ≤ 2 by norm_num) (show (-1022 : Int) ≤ 0 by norm_num)
    simpa using this
  have h1 : Float64.zero.le const3000 = true := by
    unfold Float64.zero const3000
    rw [Float64.le_finite]
    simp only [Float64.toRat]
    norm_num
  have h2 : minNormal.le const3000 = true := by
    unfold minNormal const3000
    rw [Float64.le_finite]
    simp only [Float64.toRat, Bool.false_eq_true, if_false, Nat.cast_one, one_mul, zpow_zero,
      mul_one]
    have : (1 : ℚ) ≤ ((3000 : Nat) : ℚ) := by norm_num
    linarith
  have h3 : const3000.lt (Float64.inf false) = true := rfl
  have h4 : (Float64.finite true 3000 0 (by decide)).le Float64.zero = true := by
    unfold Float64.zero
    rw [Float64.le_finite]
    simp only [Float64.toRat]
    norm_num
  have h5 : (Float64.finite true 3000 0 (by decide)).le negMinNormal = true := by
    unfold negMinNormal
    rw [Float64.le_finite]
    simp only [Float64.toRat, if_true, ↓reduceIte, Nat.cast_one, one_mul, zpow_zero, mul_one]
    have : (1 : ℚ) ≤ ((3000 : Nat) : ℚ) := by norm_num
    linarith
  have h6 : (Float64.inf true).lt (Float64.finite true 3000 0 (by decide)) = true := rfl
  exact ⟨⟨h1, h2, h3, h4, h5, h6⟩,
    (discount_order { Name := "Notebook", Price := const3000 }).1 h1,
    (discount_order { Name := "Notebook", Price := const3000 }).2.2.1 h2 h3,
    (discount_order { Name := "Notebook", Price := Float64.finite true 3000 0 (by decide) }).2.1 h4,
    (discount_order
      { Name := "Notebook", Price := Float64.finite true 3000 0 (by decide) }).2.2.2 h5 h6⟩

end Discounts
